import Mathlib

/-!
Verification of the ingestion-and-enrichment pipeline of the donminiapp
repository: a shallow embedding in Lean 4 of `src/parser/data_extractor.py`,
`src/parser/media_handler.py`, `src/parser/telegram_parser.py` and
`src/services/geocoding_service.py`, together with theorems settling the
frozen claims about them.

Modelling conventions:
* Python strings are Lean `String`s, processed as `List Char`.
* Python `re` character classes are modelled over the code points that can
  occur in the repository's inputs: `\d` is an ASCII digit, `\s` is one of
  the six ASCII whitespace characters; case-insensitive matching lowers
  ASCII letters and the Cyrillic block actually used by the patterns.
* `float` values are rationals `ℚ`; a raised Python exception is the
  `Except.error` branch of `Except PyExc`.
* External collaborators (embedding service, geocoder transport, Telegram
  client, database commit) are explicit parameters or small response
  algebras, so every function stays executable.
-/

/-- Python exceptions that the modelled code can raise or catch. -/
inductive PyExc where
  | httpStatusError
  | jsonDecodeError
  | valueError
  deriving DecidableEq, Repr

instance {α β : Type} [DecidableEq α] [DecidableEq β] :
    DecidableEq (Except α β) := fun a b =>
  match a, b with
  | Except.ok x, Except.ok y =>
      if h : x = y then isTrue (by rw [h]) else isFalse (by simp [h])
  | Except.error x, Except.error y =>
      if h : x = y then isTrue (by rw [h]) else isFalse (by simp [h])
  | Except.ok _, Except.error _ => isFalse (by simp)
  | Except.error _, Except.ok _ => isFalse (by simp)

/-- The six ASCII characters matched by Python regex `\s` (the further
Unicode whitespace code points are not printable and outside our inputs). -/
def isSpaceChar (c : Char) : Bool :=
  c = ' ' || c = '\t' || c = '\n' || c = '\r' || c = '\x0b' || c = '\x0c'

/-- Lower-casing as used by `re.IGNORECASE` on the pattern alphabets that
occur in the source: ASCII letters and the Russian Cyrillic block. -/
def charLower (c : Char) : Char :=
  if 'A' ≤ c && c ≤ 'Z' then Char.ofNat (c.toNat + 32)
  else if 0x410 ≤ c.toNat && c.toNat ≤ 0x42F then Char.ofNat (c.toNat + 32)
  else if c.toNat = 0x401 then Char.ofNat 0x451
  else c

/-- Case-insensitive "the (already lowercase) literal `pat` starts here". -/
def ciPrefOf : List Char → List Char → Bool
  | [], _ => true
  | _ :: _, [] => false
  | p :: ps, c :: cs => charLower c = p && ciPrefOf ps cs

/-- Case-insensitive substring occurrence, i.e. `re.search` of a literal. -/
def ciContains (pat : List Char) : List Char → Bool
  | [] => ciPrefOf pat []
  | c :: cs => ciPrefOf pat (c :: cs) || ciContains pat cs

/-- Numeric value of a digit string (`int(...)` on a `\d+` group). -/
def digitsToNat (l : List Char) : Nat :=
  l.foldl (fun a c => 10 * a + (c.toNat - 48)) 0

/-- Fractional value of the digit string after a decimal point. -/
def fracVal (l : List Char) : ℚ :=
  (digitsToNat l : ℚ) / (10 : ℚ) ^ l.length

/-- Python `float(...)` on the strings this pipeline ever feeds it:
an optional sign, then either `digits [ "." digits* ]` or `"." digits+`.
`none` models a raised `ValueError`. -/
def pyFloatCore (l : List Char) : Option ℚ :=
  let ip := l.takeWhile Char.isDigit
  match l.dropWhile Char.isDigit with
  | [] => if ip.isEmpty then none else some (digitsToNat ip : ℚ)
  | r :: fp =>
      if r = '.' && fp.all Char.isDigit && !(ip.isEmpty && fp.isEmpty) then
        some ((digitsToNat ip : ℚ) + fracVal fp)
      else none

def pyFloat : List Char → Option ℚ
  | [] => pyFloatCore []
  | c :: rest =>
      if c = '-' then (pyFloatCore rest).map Neg.neg
      else pyFloatCore (c :: rest)

/-- Python `round(x, 2)` (round half to even at the second decimal).
Binary floating artifacts are not modelled; no input of the claims is
affected by them. -/
def pyRound2 (q : ℚ) : ℚ :=
  let x := q * 100
  let n := ⌊x⌋
  let r : Int :=
    if (x - n : ℚ) > 1 / 2 then n + 1
    else if (x - n : ℚ) < 1 / 2 then n
    else if n % 2 = 0 then n else n + 1
  (r : ℚ) / 100

/-- Python `str.strip()` restricted to the `\s` alphabet above. -/
def stripChars (l : List Char) : List Char :=
  ((l.dropWhile isSpaceChar).reverse.dropWhile isSpaceChar).reverse

def pyStrip (s : String) : String :=
  String.mk (stripChars s.data)

/-!
### `PropertyDataExtractor` (src/parser/data_extractor.py)

Each `re` pattern of the class is embedded as an executable matcher with
`re.search` semantics (leftmost match; greedy quantifiers).  For the four
numeric patterns the greedy runs are maximal character-class spans, and
backtracking inside a span can never succeed where the maximal span fails,
because the continuation literals start with characters outside the span
class; the matchers therefore use maximal spans directly.
-/

/-- `TRANSACTION_PATTERNS`: alternation literals per key, in dict order. -/
def TRANSACTION_PATTERNS : List (String × List String) :=
  [("sell", ["продам", "продаю", "продается", "продажа"]),
   ("rent", ["сдам", "сдаю", "сдается", "аренда", "снять"])]

/-- `PROPERTY_PATTERNS`: alternation literals per key, in dict order. -/
def PROPERTY_PATTERNS : List (String × List String) :=
  [("apartment", ["квартир", "кв.", "apartment"]),
   ("house", ["дом", "house", "коттедж"]),
   ("commercial", ["коммерч", "офис", "магазин", "торгов"])]

/-- `_extract_enum`: first key whose pattern matches anywhere in the text. -/
def extract_enum (t : String) (patterns : List (String × List String)) :
    Option String :=
  match patterns.find? (fun kp => kp.2.any (fun a => ciContains a.data t.data)) with
  | some kp => some kp.1
  | none => none

/-- One rooms pattern `(\d+)[-\s]?UNIT` applied at the current position. -/
def roomsMatchAt (unit : List Char) (l : List Char) : Option (List Char) :=
  match l with
  | [] => none
  | c :: _ =>
    if c.isDigit then
      let ds := l.takeWhile Char.isDigit
      let rest := l.dropWhile Char.isDigit
      if ciPrefOf unit rest then some ds
      else
        match rest with
        | r :: rest2 =>
            if (r = '-' || isSpaceChar r) && ciPrefOf unit rest2 then some ds
            else none
        | [] => none
    else none

/-- `re.search` scan for one rooms pattern. -/
def roomsSearch (unit : List Char) : List Char → Option (List Char)
  | [] => none
  | c :: cs =>
    match roomsMatchAt unit (c :: cs) with
    | some g => some g
    | none => roomsSearch unit cs

/-- `ROOMS_PATTERNS`: the three unit literals, in list order. -/
def ROOMS_PATTERNS : List (List Char) := ["комн".data, "к.".data, "bedroom".data]

/-- The `for pattern in self.ROOMS_PATTERNS` loop of `_extract_rooms`. -/
def roomsLoop (t : List Char) : List (List Char) → Option Int
  | [] => none
  | u :: us =>
    match roomsSearch u t with
    | some ds => some (digitsToNat ds : Int)
    | none => roomsLoop t us

/-- `_extract_rooms`: first matching rooms pattern, `int` of its group. -/
def extract_rooms (t : String) : Option Int :=
  roomsLoop t.data ROOMS_PATTERNS

/-- The numeric group `(\d+[\.,]?\d*)` of `AREA_PATTERN`, kept as its
integer digits, optional separator character and fraction digits (their
concatenation is the matched group string). -/
structure NumGroup where
  ip : List Char
  sep : Option Char
  fp : List Char
  deriving DecidableEq, Repr

def numGroupChars (g : NumGroup) : List Char :=
  g.ip ++ (match g.sep with | some s => [s] | none => []) ++ g.fp

/-- `\s*(?:м²|м2|кв\.м)` at the current position. -/
def areaUnitAt (l : List Char) : Bool :=
  let r := l.dropWhile isSpaceChar
  ciPrefOf "м²".data r || ciPrefOf "м2".data r || ciPrefOf "кв.м".data r

/-- The part of `AREA_PATTERN` after the leading digit run `ip`: the
optional `[\.,]` separator with its greedy `\d*` fraction run, then
`\s*UNIT` (tried at the fraction end first, then without the separator,
mirroring the engine's backtracking order; positions strictly inside a
digit run cannot succeed, as analysed above). -/
def areaAfterInt (ip : List Char) : List Char → Option NumGroup
  | s :: r2 =>
    if s = '.' || s = ',' then
      if areaUnitAt (r2.dropWhile Char.isDigit) then
        some ⟨ip, some s, r2.takeWhile Char.isDigit⟩
      else if areaUnitAt (s :: r2) then some ⟨ip, none, []⟩
      else none
    else if areaUnitAt (s :: r2) then some ⟨ip, none, []⟩ else none
  | [] => if areaUnitAt [] then some ⟨ip, none, []⟩ else none

/-- `AREA_PATTERN` applied at the current position. -/
def areaMatchAt (l : List Char) : Option NumGroup :=
  match l with
  | [] => none
  | c :: _ =>
    if c.isDigit then
      areaAfterInt (l.takeWhile Char.isDigit) (l.dropWhile Char.isDigit)
    else none

/-- `re.search` scan for `AREA_PATTERN`. -/
def areaSearch : List Char → Option NumGroup
  | [] => none
  | c :: cs =>
    match areaMatchAt (c :: cs) with
    | some g => some g
    | none => areaSearch cs

/-- `_extract_area`: `float(match.group(1).replace(",", "."))`. -/
def extract_area (t : String) : Except PyExc (Option ℚ) :=
  match areaSearch t.data with
  | none => Except.ok none
  | some g =>
    match pyFloat ((numGroupChars g).map (fun c => if c = ',' then '.' else c)) with
    | some q => Except.ok (some q)
    | none => Except.error PyExc.valueError

/-- Drop one leading occurrence of the given character (`:?` and `\.?`). -/
def optSkip (ch : Char) : List Char → List Char
  | x :: xs => if x = ch then xs else x :: xs
  | [] => []

/-- The group `(\d+/\d+)` of `FLOOR_PATTERN` at the current position. -/
def floorDigits (r3 : List Char) : Option (List Char) :=
  let d1 := r3.takeWhile Char.isDigit
  match r3.dropWhile Char.isDigit with
  | s :: r4 =>
    let d2 := r4.takeWhile Char.isDigit
    if s = '/' && !d1.isEmpty && !d2.isEmpty then some (d1 ++ '/' :: d2)
    else none
  | [] => none

/-- Continuation `\s*:?\s*(\d+/\d+)` of `FLOOR_PATTERN` after the floor
keyword. -/
def floorTail (r : List Char) : Option (List Char) :=
  floorDigits ((optSkip ':' (r.dropWhile isSpaceChar)).dropWhile isSpaceChar)

/-- `FLOOR_PATTERN` `(?:этаж|эт\.?)\s*:?\s*(\d+/\d+)` at a position.
When `эт\.` matches but the continuation fails, retrying without the dot
also fails (the next character is the dot, which is neither `:`, space nor
a digit), so the greedy `\.?` needs no backtracking. -/
def floorMatchAt (l : List Char) : Option (List Char) :=
  if ciPrefOf "этаж".data l then floorTail (l.drop 4)
  else if ciPrefOf "эт".data l then floorTail (optSkip '.' (l.drop 2))
  else none

/-- `re.search` scan for `FLOOR_PATTERN`. -/
def floorSearch : List Char → Option (List Char)
  | [] => none
  | c :: cs =>
    match floorMatchAt (c :: cs) with
    | some g => some g
    | none => floorSearch cs

/-- `_extract_floor`. -/
def extract_floor (t : String) : Option String :=
  (floorSearch t.data).map String.mk

/-- The character class `[\d\s,]` of the two price patterns. -/
def priceClassChar (c : Char) : Bool :=
  c.isDigit || isSpaceChar c || c = ','

/-- Continuation `s*(?:\$|USD)` of `PRICE_USD_PATTERN` (the source regex
has a literal `s*` where `\s*` was surely meant; embedded as written). -/
def usdTailMatch : List Char → Bool
  | [] => false
  | c :: cs =>
    c = '$' || ciPrefOf "usd".data (c :: cs) ||
      (charLower c = 's' && usdTailMatch cs)

/-- Shared shape of the two price patterns `(\d[\d\s,]*)TAIL` at a
position: a digit, the maximal `[\d\s,]*` run, then the
pattern-specific continuation on the rest. -/
def priceMatchAt (tailOk : List Char → Bool) (l : List Char) :
    Option (List Char) :=
  match l with
  | [] => none
  | c :: rest =>
    if c.isDigit then
      if tailOk (rest.dropWhile priceClassChar) then
        some (c :: rest.takeWhile priceClassChar)
      else none
    else none

def priceSearch (tailOk : List Char → Bool) : List Char → Option (List Char)
  | [] => none
  | c :: cs =>
    match priceMatchAt tailOk (c :: cs) with
    | some g => some g
    | none => priceSearch tailOk cs

/-- `re.search` of `PRICE_USD_PATTERN` `(\d[\d\s,]*)s*(?:\$|USD)`. -/
def usdSearch : List Char → Option (List Char) := priceSearch usdTailMatch

/-- Continuation `\s*(?:₽|RUB|руб)` of `PRICE_RUB_PATTERN`; the class run
before it is space-maximal, so `\s*` consumes nothing here. -/
def rubTailMatch (l : List Char) : Bool :=
  ciPrefOf "₽".data l || ciPrefOf "rub".data l || ciPrefOf "руб".data l

/-- `re.search` of `PRICE_RUB_PATTERN` `(\d[\d\s,]*)\s*(?:₽|RUB|руб)`. -/
def rubSearch : List Char → Option (List Char) := priceSearch rubTailMatch

/-- `.replace(",", "").replace(" ", "")` on a price group. -/
def priceDigits (g : List Char) : List Char :=
  g.filter (fun c => c ≠ ',' && c ≠ ' ')

/-- `_extract_price`: USD pattern first, then RUB with `round(x/90.0, 2)`. -/
def extract_price (t : String) : Except PyExc (Option ℚ) :=
  match usdSearch t.data with
  | some g =>
    match pyFloat (priceDigits g) with
    | some q => Except.ok (some q)
    | none => Except.error PyExc.valueError
  | none =>
    match rubSearch t.data with
    | some g =>
      match pyFloat (priceDigits g) with
      | some q => Except.ok (some (pyRound2 (q / 90)))
      | none => Except.error PyExc.valueError
    | none => Except.ok none

/-- Python `\w` over the alphabets of this pipeline: ASCII alphanumerics,
underscore, and the Cyrillic block. -/
def isWordChar (c : Char) : Bool :=
  c.isAlphanum || c = '_' || (0x400 ≤ c.toNat && c.toNat ≤ 0x4FF)

/-- The character class `[\w\s\.]` of the address pattern. -/
def addrClassChar (c : Char) : Bool :=
  isWordChar c || isSpaceChar c || c = '.'

def ADDR_KEYWORDS : List (List Char) :=
  ["ул.".data, "улица".data, "район".data, "р-н".data]

/-- `(ул\.|улица|район|р-н)\s*([\w\s\.]+)` at a position; returns the whole
match (`group(0)`), original case preserved.  Because `[\w\s\.]` contains
`\s`, the match succeeds exactly when at least one class character follows
the keyword, and `group(0)` extends to the maximal class run. -/
def addrMatchAt (l : List Char) : Option (List Char) :=
  match ADDR_KEYWORDS.find? (fun kw => ciPrefOf kw l) with
  | none => none
  | some kw =>
    let rest := l.drop kw.length
    let run := rest.takeWhile addrClassChar
    if run.isEmpty then none else some (l.take kw.length ++ run)

def addrSearch : List Char → Option (List Char)
  | [] => none
  | c :: cs =>
    match addrMatchAt (c :: cs) with
    | some g => some g
    | none => addrSearch cs

/-- `_extract_address`: `match.group(0).strip()`. -/
def extract_address (t : String) : Option String :=
  (addrSearch t.data).map (fun g => String.mk (stripChars g))

/-- `_clean_description`: `text.strip()`. -/
def clean_description (t : String) : String := pyStrip t

/-- The dictionary produced by `PropertyDataExtractor.extract`. -/
structure ExtractedData where
  raw_text : String
  transaction_type : Option String
  property_type : Option String
  rooms : Option Int
  area_sqm : Option ℚ
  floor : Option String
  price_usd : Option ℚ
  address : Option String
  description : String
  deriving DecidableEq, Repr

/-- `PropertyDataExtractor.extract`.  The dict literal evaluates its field
expressions in order; only `_extract_area` and `_extract_price` contain a
`float(...)` call that could raise, so those two are sequenced in the
error monad and the rest are total. -/
def extract (t : String) : Except PyExc ExtractedData :=
  match extract_area t with
  | Except.error e => Except.error e
  | Except.ok area =>
    match extract_price t with
    | Except.error e => Except.error e
    | Except.ok price =>
      Except.ok
        { raw_text := t
          transaction_type := extract_enum t TRANSACTION_PATTERNS
          property_type := extract_enum t PROPERTY_PATTERNS
          rooms := extract_rooms t
          area_sqm := area
          floor := extract_floor t
          price_usd := price
          address := extract_address t
          description := clean_description t }

/-!
### `generate_embedding` (src/parser/data_extractor.py, lines 197-233)

The OpenAI client is a parameter mapping the zero-based call number to an
outcome; the function returns its result together with the number of calls
it made to the service.
-/

/-- One outcome of `openai.embeddings.create`: a vector, a rate-limit
exception, or any other exception (the source's `except Exception` treats
the last two identically). -/
inductive EmbedOutcome where
  | ok (v : List ℚ)
  | rateLimited
  | apiError
  deriving DecidableEq, Repr

/-- Python `repr`/f-string of a float, used only to build the embedded
text; an approximation (shortest-roundtrip printing is not modelled), and
no claim depends on its exact form. -/
def pyFloatRepr (q : ℚ) : String :=
  if q.den = 1 then toString q.num ++ ".0" else toString q

/-- `f"{rooms} комнат" if property_data.get('rooms') else None`
(Python truthiness: `None` and `0` are both falsy). -/
def roomsPhrase (r : Option Int) : Option String :=
  match r with
  | none => none
  | some n => if n = 0 then none else some (toString n ++ " комнат")

/-- `f"{area_sqm} м²" if property_data.get('area_sqm') else None`. -/
def areaPhrase (a : Option ℚ) : Option String :=
  match a with
  | none => none
  | some q => if q = 0 then none else some (pyFloatRepr q ++ " м²")

/-- `filter(None, parts)`: drop `None` and falsy (empty) strings. -/
def pyFilterTruthy (parts : List (Option String)) : List String :=
  parts.foldr (fun p acc => match p with
    | some s => if s = "" then acc else s :: acc
    | none => acc) []

/-- `" ".join(...)`. -/
def pyJoinSpace : List String → String
  | [] => ""
  | [s] => s
  | s :: rest => s ++ " " ++ pyJoinSpace rest

/-- The consolidated string `text_to_embed` of `generate_embedding`:
transaction type, property type, rooms phrase, area phrase, address,
description, filtered, space-joined, stripped. -/
def buildEmbedText (d : ExtractedData) : String :=
  pyStrip (pyJoinSpace (pyFilterTruthy
    [d.transaction_type, d.property_type, roomsPhrase d.rooms,
     areaPhrase d.area_sqm, d.address, some d.description]))

/-- `PropertyDataExtractor.generate_embedding`: one service call at most,
`None` on empty text or on any exception.  Returns the result paired with
the number of service invocations. -/
def generate_embedding (svc : Nat → EmbedOutcome) (d : ExtractedData) :
    Option (List ℚ) × Nat :=
  let t := buildEmbedText d
  if t = "" then (none, 0)
  else
    match svc 0 with
    | EmbedOutcome.ok v => (some v, 1)
    | EmbedOutcome.rateLimited => (none, 1)
    | EmbedOutcome.apiError => (none, 1)

/-!
### `GeocodingService.get_coordinates` (src/services/geocoding_service.py)

The HTTP exchange is a response algebra: the code path taken by the
source for each response shape.  The `except` clause of the source lists
exactly `(httpx.RequestError, KeyError, IndexError)`; an HTTP error
status (`raise_for_status` raises `httpx.HTTPStatusError`, which is not a
`RequestError`), a non-JSON body (`json.JSONDecodeError`) and a malformed
`pos` string (`ValueError` from `float`/unpacking) are not caught.
-/

inductive GeoReply where
  /-- `httpx.RequestError` raised inside `client.get` (caught). -/
  | transportError
  /-- non-2xx status: `raise_for_status` raises `HTTPStatusError` (uncaught). -/
  | badStatus
  /-- body is not JSON: `response.json()` raises (uncaught). -/
  | invalidJson
  /-- JSON lacking the nested keys: `KeyError` (caught). -/
  | malformedStructure
  /-- the `featureMember` list, as the `pos` string of each entry. -/
  | results (posStrings : List String)
  deriving DecidableEq, Repr

/-- Accumulator pass of `str.split()`: `cur` is the reversed current
token. -/
def pySplitAux : List Char → List Char → List (List Char)
  | [], cur => if cur.isEmpty then [] else [cur.reverse]
  | c :: cs, cur =>
    if isSpaceChar c then
      if cur.isEmpty then pySplitAux cs [] else cur.reverse :: pySplitAux cs []
    else pySplitAux cs (c :: cur)

/-- `point.split()`: split on whitespace runs, dropping empty tokens. -/
def pySplitWs (l : List Char) : List (List Char) := pySplitAux l []

/-- `longitude, latitude = map(float, point.split())`: exactly two tokens,
both parseable, else a `ValueError`; returns `(latitude, longitude)`. -/
def parsePosPair (s : String) : Option (ℚ × ℚ) :=
  match pySplitWs s.data with
  | [a, b] =>
    match pyFloat a, pyFloat b with
    | some lon, some lat => some (lat, lon)
    | _, _ => none
  | _ => none

/-- `GeocodingService.get_coordinates` over the response algebra. -/
def get_coordinates (apiKey : Option String) (address : String)
    (reply : GeoReply) : Except PyExc (Option (ℚ × ℚ)) :=
  if apiKey.getD "" = "" || address = "" then Except.ok none
  else
    match reply with
    | GeoReply.transportError => Except.ok none
    | GeoReply.badStatus => Except.error PyExc.httpStatusError
    | GeoReply.invalidJson => Except.error PyExc.jsonDecodeError
    | GeoReply.malformedStructure => Except.ok none
    | GeoReply.results [] => Except.ok none
    | GeoReply.results (p :: _) =>
      match parsePosPair p with
      | some latLon => Except.ok (some latLon)
      | none => Except.error PyExc.valueError

/-!
### `MediaHandler.download_media` (src/parser/media_handler.py)

A Telegram message is a record; the Telethon client is a message store
with `get_messages(chat_id, ids=...)` returning, per requested id, the
stored message or `None` (the standard lookup-by-id contract, and exactly
what the repository's own test mocks).  `download_media` on a message
produces a deterministic local path (`mediaPath`); `_process_image`
re-encodes in place and always returns the path it was given, so it is
the identity on paths.
-/

structure TgMessage where
  id : Nat
  chat_id : Int
  date : Nat
  text : String
  photo : Bool
  video : Bool
  grouped_id : Option Nat
  mediaPath : String
  views : Option Nat
  deriving DecidableEq, Repr

/-- `client.get_messages(chat_id, ids=ids)`. -/
def get_messages (store : List TgMessage) (chat : Int) (ids : List Nat) :
    List (Option TgMessage) :=
  ids.map (fun i => store.find? (fun m => m.chat_id = chat && m.id = i))

/-- Python truthiness of the optional `grouped_id` integer. -/
def truthyGroupId (g : Option Nat) : Bool := g.getD 0 ≠ 0

/-- The `for msg in group_messages` accumulation loop: download when the
message has a photo or video, append unless the path is already present. -/
def groupLoop (acc : List String) : List (Option TgMessage) → List String
  | [] => acc
  | om :: rest =>
    match om with
    | some mg =>
      if (mg.photo || mg.video) && !(acc.contains mg.mediaPath)
      then groupLoop (acc ++ [mg.mediaPath]) rest
      else groupLoop acc rest
    | none => groupLoop acc rest

/-- `MediaHandler.download_media`: single-attachment branch, then the
grouped branch, which requests only `ids=[message.id]` from the client. -/
def download_media (store : List TgMessage) (m : TgMessage) : List String :=
  let paths1 : List String := if m.photo || m.video then [m.mediaPath] else []
  if truthyGroupId m.grouped_id then
    groupLoop paths1 (get_messages store m.chat_id [m.id])
  else paths1

/-!
### `TelegramChannelParser` (src/parser/telegram_parser.py)

The persisted `Property` row (src/models/property.py) and the parser
state: the committed rows, the in-memory `last_message_id`, and the
channel id.  `session.add`/`session.commit` is an insert guarded by the
unique constraint on `telegram_message_id` (line 58 of the model);
a violation raises `IntegrityError`, which `process_message` catches and
answers with `rollback` (the uncommitted row is discarded).
-/

structure PropertyRow where
  telegram_message_id : Nat
  telegram_channel_id : Int
  posted_at : Nat
  transaction_type : Option String
  property_type : Option String
  rooms : Option Int
  area_sqm : Option ℚ
  floor : Option String
  price_usd : Option ℚ
  address : Option String
  latitude : Option ℚ
  longitude : Option ℚ
  description : String
  raw_text : String
  embedding : Option (List ℚ)
  photos : List String
  video_url : Option String
  views_count : Nat
  deriving DecidableEq, Repr

/-- Commit of one inserted row: fails on a duplicate
`telegram_message_id`, else appends the row. -/
def dbInsert (db : List PropertyRow) (r : PropertyRow) :
    Except Unit (List PropertyRow) :=
  if db.any (fun x => x.telegram_message_id = r.telegram_message_id)
  then Except.error ()
  else Except.ok (db ++ [r])

structure ParserState where
  db : List PropertyRow
  last_message_id : Nat
  channel_id : Int
  deriving DecidableEq, Repr

def strEndsWith (s suffix : String) : Bool :=
  List.isSuffixOf suffix.data s.data

/-- `media_paths[0] if media_paths and media_paths[0].endswith(('.mp4', '.mov')) else None`. -/
def videoUrlOf (media : List String) : Option String :=
  match media with
  | [] => none
  | p :: _ => if strEndsWith p ".mp4" || strEndsWith p ".mov" then some p else none

/-- The `Property(...)` constructor call of `process_message`. -/
def mkRow (channel : Int) (m : TgMessage) (d : ExtractedData)
    (media : List String) (coords : Option (ℚ × ℚ)) (emb : Option (List ℚ)) :
    PropertyRow :=
  { telegram_message_id := m.id
    telegram_channel_id := channel
    posted_at := m.date
    transaction_type := d.transaction_type
    property_type := d.property_type
    rooms := d.rooms
    area_sqm := d.area_sqm
    floor := d.floor
    price_usd := d.price_usd
    address := d.address
    latitude := coords.map Prod.fst
    longitude := coords.map Prod.snd
    description := d.description
    raw_text := d.raw_text
    embedding := emb
    photos := media
    video_url := videoUrlOf media
    views_count := m.views.getD 0 }

/-- `if extracted_data.get('address'): coords = await geocoding_service
.get_coordinates(...)` — the address must be truthy (present, non-empty)
for a geocode attempt to happen. -/
def geocodeStep (apiKey : Option String) (georeply : String → GeoReply)
    (addr : Option String) : Except PyExc (Option (ℚ × ℚ)) :=
  match addr with
  | none => Except.ok none
  | some a => if a = "" then Except.ok none
              else get_coordinates apiKey a (georeply a)

/-- `TelegramChannelParser.process_message`.  A message without text
returns immediately; the commit is guarded by try/except (rollback on
failure); exceptions escaping `extract` or the geocoder propagate. -/
def process_message (svc : Nat → EmbedOutcome) (apiKey : Option String)
    (georeply : String → GeoReply) (store : List TgMessage)
    (st : ParserState) (m : TgMessage) : Except PyExc ParserState :=
  if m.text = "" then Except.ok st
  else
    match extract m.text with
    | Except.error e => Except.error e
    | Except.ok data =>
      let media := download_media store m
      match geocodeStep apiKey georeply data.address with
      | Except.error e => Except.error e
      | Except.ok coords =>
        let emb := (generate_embedding svc data).1
        let row := mkRow st.channel_id m data media coords emb
        match dbInsert st.db row with
        | Except.ok db2 =>
            Except.ok { st with db := db2, last_message_id := m.id }
        | Except.error _ => Except.ok st

/-- One comparison step of the `ORDER BY posted_at DESC ... LIMIT 1`
evaluation. -/
def latestStep (best : Option PropertyRow) (r : PropertyRow) :
    Option PropertyRow :=
  match best with
  | none => some r
  | some b => if b.posted_at < r.posted_at then some r else some b

/-- `query(Property).order_by(Property.posted_at.desc()).first()`:
the stored row with the greatest `posted_at` (the first such row on ties,
which SQL leaves unspecified). -/
def latestByPostedAt (db : List PropertyRow) : Option PropertyRow :=
  db.foldl latestStep none

/-- `TelegramChannelParser._load_last_message_id`. -/
def load_last_message_id (db : List PropertyRow) : Nat :=
  match latestByPostedAt db with
  | none => 0
  | some r => r.telegram_message_id

/-- Modelled from the spec: the watermark the specification promises,
"the maximum `source message id` among persisted Property rows"
(refinement comparison only; the source derives its value differently). -/
def specMaxMessageId (db : List PropertyRow) : Nat :=
  db.foldl (fun acc r => max acc r.telegram_message_id) 0

/-!
### Helper lemmas

Facts about the matchers used by several of the claim theorems: every
numeric matcher fails on digit-free text, matched groups consist of the
character classes of their patterns, and `float(...)` succeeds on the
strings those groups produce.
-/

lemma isDigit_ne_dash {c : Char} (h : c.isDigit = true) : ¬ c = '-' := by
  intro e; subst e; simp at h

lemma isDigit_ne_comma {c : Char} (h : c.isDigit = true) : ¬ c = ',' := by
  intro e; subst e; simp at h

lemma isDigit_ne_space {c : Char} (h : c.isDigit = true) : ¬ c = ' ' := by
  intro e; subst e; simp at h

lemma takeWhile_digit_nil {l : List Char}
    (h : ∀ c ∈ l, c.isDigit = false) : l.takeWhile Char.isDigit = [] := by
  cases l with
  | nil => rfl
  | cons a as =>
    rw [List.takeWhile_cons_of_neg]
    simp [h a (List.mem_cons_self a as)]

lemma pyFloat_digits_val {l : List Char} (hne : l ≠ [])
    (h : ∀ c ∈ l, c.isDigit = true) :
    pyFloat l = some ((digitsToNat l : ℕ) : ℚ) := by
  cases l with
  | nil => exact absurd rfl hne
  | cons c cs =>
    have hc := h c (List.mem_cons_self c cs)
    rw [pyFloat, if_neg (isDigit_ne_dash hc)]
    unfold pyFloatCore
    rw [List.dropWhile_eq_nil_iff.mpr h, List.takeWhile_eq_self_iff.mpr h]
    simp

lemma pyFloat_digits {l : List Char} (hne : l ≠ [])
    (h : ∀ c ∈ l, c.isDigit = true) : ∃ q, pyFloat l = some q :=
  ⟨_, pyFloat_digits_val hne h⟩

lemma pyFloat_dec {ip fp : List Char} (hne : ip ≠ [])
    (hip : ∀ c ∈ ip, c.isDigit = true) (hfp : ∀ c ∈ fp, c.isDigit = true) :
    ∃ q, pyFloat (ip ++ '.' :: fp) = some q := by
  cases ip with
  | nil => exact absurd rfl hne
  | cons c cs =>
    have hc := hip c (List.mem_cons_self c cs)
    rw [List.cons_append, pyFloat, if_neg (isDigit_ne_dash hc)]
    rw [show c :: (cs ++ '.' :: fp) = (c :: cs) ++ '.' :: fp by simp]
    unfold pyFloatCore
    rw [List.takeWhile_append_of_pos hip, List.dropWhile_append_of_pos hip,
        List.takeWhile_cons_of_neg (by simp), List.dropWhile_cons_of_neg (by simp)]
    simp [List.all_eq_true.mpr hfp]

/-- Digits pass unchanged through `.replace(",", ".")`. -/
lemma mapComma_digits {l : List Char} (h : ∀ c ∈ l, c.isDigit = true) :
    l.map (fun c => if c = ',' then '.' else c) = l := by
  induction l with
  | nil => rfl
  | cons a as ih =>
    rw [List.map_cons, if_neg (isDigit_ne_comma (h a (List.mem_cons_self a as))),
        ih (fun c hc => h c (List.mem_cons_of_mem a hc))]

lemma roomsMatchAt_noDigit {u : List Char} {l : List Char}
    (h : ∀ c ∈ l, c.isDigit = false) : roomsMatchAt u l = none := by
  cases l with
  | nil => rfl
  | cons c cs =>
    simp only [roomsMatchAt]
    rw [h c (List.mem_cons_self c cs)]
    rfl

lemma roomsSearch_noDigit {u : List Char} {l : List Char}
    (h : ∀ c ∈ l, c.isDigit = false) : roomsSearch u l = none := by
  induction l with
  | nil => rfl
  | cons c cs ih =>
    simp only [roomsSearch, roomsMatchAt_noDigit h]
    exact ih (fun x hx => h x (List.mem_cons_of_mem c hx))

lemma extract_rooms_noDigit {t : String}
    (h : ∀ c ∈ t.data, c.isDigit = false) : extract_rooms t = none := by
  simp [extract_rooms, ROOMS_PATTERNS, roomsLoop, roomsSearch_noDigit h]

lemma areaMatchAt_noDigit {l : List Char}
    (h : ∀ c ∈ l, c.isDigit = false) : areaMatchAt l = none := by
  cases l with
  | nil => rfl
  | cons c cs =>
    simp only [areaMatchAt]
    rw [h c (List.mem_cons_self c cs)]
    rfl

lemma areaSearch_noDigit {l : List Char}
    (h : ∀ c ∈ l, c.isDigit = false) : areaSearch l = none := by
  induction l with
  | nil => rfl
  | cons c cs ih =>
    simp only [areaSearch, areaMatchAt_noDigit h]
    exact ih (fun x hx => h x (List.mem_cons_of_mem c hx))

lemma priceMatchAt_noDigit {tailOk : List Char → Bool} {l : List Char}
    (h : ∀ c ∈ l, c.isDigit = false) : priceMatchAt tailOk l = none := by
  cases l with
  | nil => rfl
  | cons c cs =>
    simp only [priceMatchAt]
    rw [h c (List.mem_cons_self c cs)]
    rfl

lemma priceSearch_noDigit {tailOk : List Char → Bool} {l : List Char}
    (h : ∀ c ∈ l, c.isDigit = false) : priceSearch tailOk l = none := by
  induction l with
  | nil => rfl
  | cons c cs ih =>
    simp only [priceSearch, priceMatchAt_noDigit h]
    exact ih (fun x hx => h x (List.mem_cons_of_mem c hx))

lemma optSkip_subset (ch : Char) (l : List Char) :
    ∀ c ∈ optSkip ch l, c ∈ l := by
  cases l with
  | nil => intro c hc; exact absurd hc (by simp [optSkip])
  | cons x xs =>
    intro c hc
    simp only [optSkip] at hc
    by_cases hx : x = ch
    · rw [if_pos hx] at hc; exact List.mem_cons_of_mem x hc
    · rwa [if_neg hx] at hc

lemma floorDigits_noDigit {r3 : List Char}
    (h : ∀ c ∈ r3, c.isDigit = false) : floorDigits r3 = none := by
  unfold floorDigits
  rw [takeWhile_digit_nil h]
  cases hd : r3.dropWhile Char.isDigit with
  | nil => rfl
  | cons s r4 => simp

lemma floorTail_noDigit {r : List Char}
    (h : ∀ c ∈ r, c.isDigit = false) : floorTail r = none := by
  unfold floorTail
  refine floorDigits_noDigit (fun c hc => h c ?_)
  have hc1 := (List.dropWhile_sublist isSpaceChar).subset hc
  have hc2 := optSkip_subset ':' (r.dropWhile isSpaceChar) c hc1
  exact (List.dropWhile_sublist isSpaceChar).subset hc2

lemma floorMatchAt_noDigit {l : List Char}
    (h : ∀ c ∈ l, c.isDigit = false) : floorMatchAt l = none := by
  unfold floorMatchAt
  have hdropn : ∀ n, ∀ c ∈ l.drop n, c.isDigit = false :=
    fun n c hc => h c ((List.drop_sublist n l).subset hc)
  by_cases h4 : ciPrefOf "этаж".data l = true
  · rw [if_pos h4]; exact floorTail_noDigit (hdropn 4)
  · rw [if_neg h4]
    by_cases h2 : ciPrefOf "эт".data l = true
    · rw [if_pos h2]
      exact floorTail_noDigit
        (fun c hc => hdropn 2 c (optSkip_subset '.' (l.drop 2) c hc))
    · rw [if_neg h2]

lemma floorSearch_noDigit {l : List Char}
    (h : ∀ c ∈ l, c.isDigit = false) : floorSearch l = none := by
  induction l with
  | nil => rfl
  | cons c cs ih =>
    simp only [floorSearch, floorMatchAt_noDigit h]
    exact ih (fun x hx => h x (List.mem_cons_of_mem c hx))

lemma extract_enum_noKw {t : String} {pats : List (String × List String)}
    (h : ∀ kp ∈ pats, ∀ a ∈ kp.2, ciContains a.data t.data = false) :
    extract_enum t pats = none := by
  unfold extract_enum
  rw [List.find?_eq_none.mpr]
  intro kp hkp hany
  rw [List.any_eq_true] at hany
  obtain ⟨a, ha, hca⟩ := hany
  rw [h kp hkp a ha] at hca
  exact Bool.false_ne_true hca

lemma ciContains_cons_false {pat c : _} {cs : List Char}
    (h : ciContains pat (c :: cs) = false) :
    ciPrefOf pat (c :: cs) = false ∧ ciContains pat cs = false := by
  have := h
  rw [ciContains, Bool.or_eq_false_iff] at this
  exact this

lemma addrMatchAt_noKw {l : List Char}
    (h : ∀ kw ∈ ADDR_KEYWORDS, ciPrefOf kw l = false) :
    addrMatchAt l = none := by
  unfold addrMatchAt
  rw [List.find?_eq_none.mpr]
  intro kw hkw hp
  rw [h kw hkw] at hp
  exact Bool.false_ne_true hp

lemma addrSearch_noKw {l : List Char}
    (h : ∀ kw ∈ ADDR_KEYWORDS, ciContains kw l = false) :
    addrSearch l = none := by
  induction l with
  | nil => rfl
  | cons c cs ih =>
    have hpref : ∀ kw ∈ ADDR_KEYWORDS, ciPrefOf kw (c :: cs) = false :=
      fun kw hkw => (ciContains_cons_false (h kw hkw)).1
    have htail : ∀ kw ∈ ADDR_KEYWORDS, ciContains kw cs = false :=
      fun kw hkw => (ciContains_cons_false (h kw hkw)).2
    simp only [addrSearch, addrMatchAt_noKw hpref]
    exact ih htail

lemma priceSearch_group {tailOk : List Char → Bool} {l g : List Char}
    (h : priceSearch tailOk l = some g) :
    (∃ c cs, g = c :: cs ∧ c.isDigit = true ∧
      ∀ x ∈ cs, priceClassChar x = true) ∧ ∀ x ∈ g, x ∈ l := by
  induction l with
  | nil => exact absurd h (by simp [priceSearch])
  | cons c cs ih =>
    rw [priceSearch] at h
    cases hm : priceMatchAt tailOk (c :: cs) with
    | some g0 =>
      rw [hm] at h
      cases h
      rw [priceMatchAt] at hm
      by_cases hc : c.isDigit = true
      · rw [if_pos hc] at hm
        by_cases ht : tailOk (cs.dropWhile priceClassChar) = true
        · rw [if_pos ht] at hm
          cases hm
          refine ⟨⟨c, cs.takeWhile priceClassChar, rfl, hc,
            fun x hx => List.mem_takeWhile_imp hx⟩, ?_⟩
          intro x hx
          rcases List.mem_cons.mp hx with hx | hx
          · exact hx ▸ List.mem_cons_self c cs
          · exact List.mem_cons_of_mem c
              ((List.takeWhile_sublist priceClassChar).subset hx)
        · rw [if_neg ht] at hm; exact absurd hm (by simp)
      · rw [if_neg hc] at hm; exact absurd hm (by simp)
    | none =>
      rw [hm] at h
      obtain ⟨hshape, hmem⟩ := ih h
      exact ⟨hshape, fun x hx => List.mem_cons_of_mem c (hmem x hx)⟩

lemma priceDigits_ofGroup {g : List Char} {l : List Char}
    (hg : ∃ c cs, g = c :: cs ∧ c.isDigit = true ∧
      ∀ x ∈ cs, priceClassChar x = true)
    (hmem : ∀ x ∈ g, x ∈ l)
    (hsp : ∀ c ∈ l, isSpaceChar c = true → c = ' ') :
    priceDigits g ≠ [] ∧ ∀ c ∈ priceDigits g, c.isDigit = true := by
  obtain ⟨c, cs, rfl, hc, hcs⟩ := hg
  constructor
  · have hcmem : c ∈ priceDigits (c :: cs) := by
      rw [priceDigits, List.mem_filter]
      refine ⟨List.mem_cons_self c cs, ?_⟩
      simp [isDigit_ne_comma hc, isDigit_ne_space hc]
    exact List.ne_nil_of_mem hcmem
  · intro x hx
    rw [priceDigits, List.mem_filter] at hx
    obtain ⟨hxg, hcond⟩ := hx
    rw [Bool.and_eq_true, decide_eq_true_iff, decide_eq_true_iff] at hcond
    rcases List.mem_cons.mp hxg with hx1 | hx2
    · exact hx1 ▸ hc
    · have hcl := hcs x hx2
      rw [priceClassChar, Bool.or_eq_true, Bool.or_eq_true] at hcl
      rcases hcl with (hd | hspx) | hcm
      · exact hd
      · exact absurd (hsp x (hmem x hxg) hspx) hcond.2
      · rw [decide_eq_true_iff] at hcm
        exact absurd hcm hcond.1

lemma extract_price_ok {t : String}
    (hsp : ∀ c ∈ t.data, isSpaceChar c = true → c = ' ') :
    ∃ p, extract_price t = Except.ok p := by
  cases hu : usdSearch t.data with
  | some g =>
    obtain ⟨hshape, hmem⟩ := priceSearch_group hu
    obtain ⟨hne, hdig⟩ := priceDigits_ofGroup hshape hmem hsp
    obtain ⟨q, hq⟩ := pyFloat_digits hne hdig
    simp only [extract_price, hu, hq]
    exact ⟨some q, rfl⟩
  | none =>
    cases hr : rubSearch t.data with
    | some g =>
      obtain ⟨hshape, hmem⟩ := priceSearch_group hr
      obtain ⟨hne, hdig⟩ := priceDigits_ofGroup hshape hmem hsp
      obtain ⟨q, hq⟩ := pyFloat_digits hne hdig
      simp only [extract_price, hu, hr, hq]
      exact ⟨some (pyRound2 (q / 90)), rfl⟩
    | none =>
      simp only [extract_price, hu, hr]
      exact ⟨none, rfl⟩

lemma areaAfterInt_shape {ip r1 : List Char} {g : NumGroup}
    (h : areaAfterInt ip r1 = some g) :
    g.ip = ip ∧ (∀ c ∈ g.fp, c.isDigit = true) ∧
    (∀ s, g.sep = some s → (s = '.' ∨ s = ',')) ∧
    (g.sep = none → g.fp = []) := by
  cases r1 with
  | nil =>
    rw [areaAfterInt] at h
    by_cases hu : areaUnitAt [] = true
    · rw [if_pos hu] at h
      cases h
      exact ⟨rfl, by simp, by simp, fun _ => rfl⟩
    · rw [if_neg hu] at h; exact absurd h (by simp)
  | cons s r2 =>
    rw [areaAfterInt] at h
    by_cases hs : (s = '.' || s = ',') = true
    · rw [if_pos hs] at h
      by_cases hu3 : areaUnitAt (r2.dropWhile Char.isDigit) = true
      · rw [if_pos hu3] at h
        cases h
        refine ⟨rfl, fun x hx => List.mem_takeWhile_imp hx, ?_, fun hn => by cases hn⟩
        intro s0 hs0
        cases hs0
        rw [Bool.or_eq_true, decide_eq_true_iff, decide_eq_true_iff] at hs
        exact hs
      · rw [if_neg hu3] at h
        by_cases hu1 : areaUnitAt (s :: r2) = true
        · rw [if_pos hu1] at h
          cases h
          exact ⟨rfl, by simp, by simp, fun _ => rfl⟩
        · rw [if_neg hu1] at h; exact absurd h (by simp)
    · rw [if_neg hs] at h
      by_cases hu1 : areaUnitAt (s :: r2) = true
      · rw [if_pos hu1] at h
        cases h
        exact ⟨rfl, by simp, by simp, fun _ => rfl⟩
      · rw [if_neg hu1] at h; exact absurd h (by simp)

lemma areaMatchAt_shape {l : List Char} {g : NumGroup}
    (h : areaMatchAt l = some g) :
    g.ip ≠ [] ∧ (∀ c ∈ g.ip, c.isDigit = true) ∧
    (∀ c ∈ g.fp, c.isDigit = true) ∧
    (∀ s, g.sep = some s → (s = '.' ∨ s = ',')) ∧
    (g.sep = none → g.fp = []) := by
  cases l with
  | nil => exact absurd h (by simp [areaMatchAt])
  | cons c cs =>
    rw [areaMatchAt] at h
    by_cases hc : c.isDigit = true
    case neg => rw [if_neg hc] at h; exact absurd h (by simp)
    rw [if_pos hc] at h
    obtain ⟨hip, hfp, hsep, hnone⟩ := areaAfterInt_shape h
    refine ⟨?_, ?_, hfp, hsep, hnone⟩
    · rw [hip, List.takeWhile_cons_of_pos hc]; simp
    · rw [hip]; exact fun x hx => List.mem_takeWhile_imp hx

lemma areaSearch_shape {l : List Char} {g : NumGroup}
    (h : areaSearch l = some g) :
    g.ip ≠ [] ∧ (∀ c ∈ g.ip, c.isDigit = true) ∧
    (∀ c ∈ g.fp, c.isDigit = true) ∧
    (∀ s, g.sep = some s → (s = '.' ∨ s = ',')) ∧
    (g.sep = none → g.fp = []) := by
  induction l with
  | nil => exact absurd h (by simp [areaSearch])
  | cons c cs ih =>
    rw [areaSearch] at h
    cases hm : areaMatchAt (c :: cs) with
    | some g0 =>
      rw [hm] at h
      cases h
      exact areaMatchAt_shape hm
    | none =>
      rw [hm] at h
      exact ih h

lemma extract_area_ok (t : String) : ∃ a, extract_area t = Except.ok a := by
  cases ha : areaSearch t.data with
  | none =>
    simp only [extract_area, ha]
    exact ⟨none, rfl⟩
  | some g =>
    obtain ⟨hne, hip, hfp, hsep, hnone⟩ := areaSearch_shape ha
    have hmain : ∃ q,
        pyFloat ((numGroupChars g).map (fun c => if c = ',' then '.' else c))
          = some q := by
      cases hs : g.sep with
      | none =>
        have hfpnil := hnone hs
        rw [numGroupChars, hs, hfpnil, List.append_nil, List.append_nil,
            mapComma_digits hip]
        exact pyFloat_digits hne hip
      | some s =>
        rw [numGroupChars, hs]
        rw [show g.ip ++ [s] ++ g.fp = g.ip ++ s :: g.fp by simp]
        rw [List.map_append, mapComma_digits hip, List.map_cons]
        have hsdot : (if s = ',' then '.' else s) = '.' := by
          rcases hsep s hs with h1 | h1
          · rw [h1]; simp
          · rw [h1]; simp
        rw [hsdot, mapComma_digits hfp]
        exact pyFloat_dec hne hip hfp
    obtain ⟨q, hq⟩ := hmain
    simp only [extract_area, ha, hq]
    exact ⟨some q, rfl⟩

/-- Texts whose regex-whitespace characters are all plain spaces; every
printable text (in the sense of Python `str.isprintable`) satisfies this,
because the other `\s` code points are non-printable. -/
def plainSpaced (t : String) : Prop :=
  ∀ c ∈ t.data, isSpaceChar c = true → c = ' '

instance (t : String) : Decidable (plainSpaced t) := by
  unfold plainSpaced; infer_instance

lemma extract_ok {t : String} (hsp : plainSpaced t) :
    ∃ r, extract t = Except.ok r := by
  obtain ⟨a, ha⟩ := extract_area_ok t
  obtain ⟨p, hp⟩ := extract_price_ok hsp
  simp only [extract, ha, hp]
  exact ⟨_, rfl⟩

/-- Every literal that any field pattern of the extractor can match
(transaction, property, address keywords); the numeric patterns are
covered by the absence of digits. -/
def FIELD_TOKENS : List String :=
  ["продам", "продаю", "продается", "продажа",
   "сдам", "сдаю", "сдается", "аренда", "снять",
   "квартир", "кв.", "apartment", "дом", "house", "коттедж",
   "коммерч", "офис", "магазин", "торгов",
   "ул.", "улица", "район", "р-н"]

lemma extract_noTokens {t : String}
    (hd : ∀ c ∈ t.data, c.isDigit = false)
    (hk : ∀ kw ∈ FIELD_TOKENS, ciContains kw.data t.data = false) :
    extract t = Except.ok
      { raw_text := t, transaction_type := none, property_type := none,
        rooms := none, area_sqm := none, floor := none, price_usd := none,
        address := none, description := pyStrip t } := by
  have harea : extract_area t = Except.ok none := by
    simp only [extract_area, areaSearch_noDigit hd]
  have hprice : extract_price t = Except.ok none := by
    simp only [extract_price, usdSearch, rubSearch, priceSearch_noDigit hd]
  have htrans : extract_enum t TRANSACTION_PATTERNS = none := by
    apply extract_enum_noKw
    intro kp hkp a ha
    apply hk
    fin_cases hkp <;> fin_cases ha <;> decide
  have hprop : extract_enum t PROPERTY_PATTERNS = none := by
    apply extract_enum_noKw
    intro kp hkp a ha
    apply hk
    fin_cases hkp <;> fin_cases ha <;> decide
  have haddr : extract_address t = none := by
    have hno : addrSearch t.data = none := by
      apply addrSearch_noKw
      intro kw hkw
      fin_cases hkw
      · exact hk "ул." (by decide)
      · exact hk "улица" (by decide)
      · exact hk "район" (by decide)
      · exact hk "р-н" (by decide)
    rw [extract_address, hno]
    rfl
  have hrooms : extract_rooms t = none := extract_rooms_noDigit hd
  have hfloor : extract_floor t = none := by
    rw [extract_floor, floorSearch_noDigit hd]
    rfl
  simp only [extract, harea, hprice, htrans, hprop, haddr, hrooms, hfloor,
    clean_description]

lemma not_mem_of_contains_false {l : List String} {a : String}
    (h : l.contains a = false) : a ∉ l := by
  intro hm
  have h2 : l.contains a = true := List.elem_eq_true_of_mem hm
  rw [h2] at h
  exact Bool.noConfusion h

lemma groupLoop_nodup (ms : List (Option TgMessage)) (acc : List String)
    (h : acc.Nodup) : (groupLoop acc ms).Nodup := by
  induction ms generalizing acc with
  | nil => exact h
  | cons om rest ih =>
    cases om with
    | none => exact ih acc h
    | some mg =>
      rw [groupLoop]
      by_cases hcond :
          ((mg.photo || mg.video) && !(acc.contains mg.mediaPath)) = true
      · rw [if_pos hcond]
        apply ih
        rw [List.nodup_append]
        rw [Bool.and_eq_true, Bool.not_eq_eq_eq_not, Bool.not_true] at hcond
        refine ⟨h, List.nodup_singleton _, ?_⟩
        intro a ha hb
        rw [List.mem_singleton] at hb
        exact not_mem_of_contains_false hcond.2 (hb ▸ ha)
      · rw [if_neg hcond]
        exact ih acc h

lemma groupLoop_scope (P : String → Prop) (ms : List (Option TgMessage))
    (acc : List String) (hacc : ∀ p ∈ acc, P p)
    (hms : ∀ om ∈ ms, ∀ mg, om = some mg → P mg.mediaPath) :
    ∀ p ∈ groupLoop acc ms, P p := by
  induction ms generalizing acc with
  | nil => exact hacc
  | cons om rest ih =>
    cases om with
    | none =>
      exact ih acc hacc
        (fun om2 h2 mg hmg => hms om2 (List.mem_cons_of_mem _ h2) mg hmg)
    | some mg =>
      rw [groupLoop]
      by_cases hcond :
          ((mg.photo || mg.video) && !(acc.contains mg.mediaPath)) = true
      · rw [if_pos hcond]
        apply ih
        · intro p hp
          rcases List.mem_append.mp hp with hp | hp
          · exact hacc p hp
          · rw [List.mem_singleton] at hp
            exact hp ▸ hms (some mg) (List.mem_cons_self _ _) mg rfl
        · exact fun om2 h2 mg2 hmg2 => hms om2 (List.mem_cons_of_mem _ h2) mg2 hmg2
      · rw [if_neg hcond]
        exact ih acc hacc
          (fun om2 h2 mg2 hmg2 => hms om2 (List.mem_cons_of_mem _ h2) mg2 hmg2)

lemma latestFold_spec (l : List PropertyRow) (b : PropertyRow) :
    ∃ r, l.foldl latestStep (some b) = some r ∧ (r = b ∨ r ∈ l) ∧
      b.posted_at ≤ r.posted_at ∧ ∀ x ∈ l, x.posted_at ≤ r.posted_at := by
  induction l generalizing b with
  | nil => exact ⟨b, rfl, Or.inl rfl, le_refl _, by simp⟩
  | cons x xs ih =>
    rw [List.foldl_cons]
    by_cases hbx : b.posted_at < x.posted_at
    · rw [show latestStep (some b) x = some x by rw [latestStep, if_pos hbx]]
      obtain ⟨r, hr, hrmem, hxle, hall⟩ := ih x
      refine ⟨r, hr, ?_, ?_, ?_⟩
      · rcases hrmem with rfl | hm
        · exact Or.inr (List.mem_cons_self _ _)
        · exact Or.inr (List.mem_cons_of_mem _ hm)
      · exact le_trans (le_of_lt hbx) hxle
      · intro y hy
        rcases List.mem_cons.mp hy with rfl | hm
        · exact hxle
        · exact hall y hm
    · rw [show latestStep (some b) x = some b by rw [latestStep, if_neg hbx]]
      obtain ⟨r, hr, hrmem, hble, hall⟩ := ih b
      refine ⟨r, hr, ?_, hble, ?_⟩
      · rcases hrmem with rfl | hm
        · exact Or.inl rfl
        · exact Or.inr (List.mem_cons_of_mem _ hm)
      · intro y hy
        rcases List.mem_cons.mp hy with rfl | hm
        · exact le_trans (le_of_not_lt hbx) hble
        · exact hall y hm

/-!
### Claim theorems
-/

/-- Claim C9: for every extracted-field mapping whose consolidated string
(transaction kind, property kind, rooms phrase, area phrase, address,
description, joined in that fixed order and trimmed) is empty — in
particular when every field is unknown/empty — `generate_embedding`
returns `None` without invoking the external embedding service. -/
theorem claim_embed_empty_no_call :
    (∀ (svc : Nat → EmbedOutcome) (d : ExtractedData),
      buildEmbedText d = "" → generate_embedding svc d = (none, 0)) ∧
    ∀ svc : Nat → EmbedOutcome,
      generate_embedding svc
        ⟨"", none, none, none, none, none, none, none, ""⟩ = (none, 0) := by
  constructor
  · intro svc d h
    simp only [generate_embedding, h]
    rfl
  · intro svc
    rfl

/-- Witness for C9: a mapping with a studio room count, zero area and no
other field consolidates to the empty string and embeds to `None` with
zero service calls. -/
theorem claim_embed_empty_no_call_witness :
    generate_embedding (fun _ => EmbedOutcome.apiError)
      ⟨"raw", none, none, some 0, some 0, none, none, none, ""⟩ = (none, 0) :=
  claim_embed_empty_no_call.1 _ _ (by decide)

/-- Claim C10 (implicit): `generate_embedding` includes the rooms phrase
and the area phrase only when those values are truthy, so a room count of
0 or an area of 0.0 is omitted from the embedded text exactly as if the
field were unknown. -/
theorem claim_embed_falsy_fields_omitted :
    ∀ (svc : Nat → EmbedOutcome) (d : ExtractedData),
      buildEmbedText { d with rooms := some 0 } =
        buildEmbedText { d with rooms := none } ∧
      buildEmbedText { d with area_sqm := some 0 } =
        buildEmbedText { d with area_sqm := none } ∧
      generate_embedding svc { d with rooms := some 0 } =
        generate_embedding svc { d with rooms := none } ∧
      generate_embedding svc { d with area_sqm := some 0 } =
        generate_embedding svc { d with area_sqm := none } :=
  fun _ _ => ⟨rfl, rfl, rfl, rfl⟩

/-- Corrected C2: `generate_embedding` makes exactly one service call per
invocation whenever the consolidated text is non-empty, and returns `None`
on any error (rate-limit included) with no sleep, retry or backoff. -/
theorem claim_embed_single_attempt :
    ∀ (svc : Nat → EmbedOutcome) (d : ExtractedData),
      buildEmbedText d ≠ "" →
      generate_embedding svc d =
        ((match svc 0 with
          | EmbedOutcome.ok v => some v
          | EmbedOutcome.rateLimited => none
          | EmbedOutcome.apiError => none), 1) := by
  intro svc d h
  simp only [generate_embedding, if_neg h]
  cases svc 0 <;> rfl

/-- A service that signals a rate limit on the first two calls and
succeeds on the third, and a mapping whose consolidated text is
non-empty. -/
def svcRateLimitTwice : Nat → EmbedOutcome :=
  fun n => if n < 2 then EmbedOutcome.rateLimited else EmbedOutcome.ok [1, 2, 3]

def sampleDescData : ExtractedData :=
  ⟨"some text", none, none, none, none, none, none, none, "some text"⟩

/-- Counterexample to C2 as stated: against a service that raises a
rate-limit condition on the first two calls and succeeds on the third,
`generate_embedding` does not return the vector after 3 attempts; it
returns `None` after exactly 1 attempt. -/
theorem claim_embed_retry_counterexample :
    generate_embedding svcRateLimitTwice sampleDescData ≠ (some [1, 2, 3], 3) ∧
    generate_embedding svcRateLimitTwice sampleDescData = (none, 1) := by
  constructor
  · decide
  · rfl

/-- Witness for the corrected C2: on a succeeding service the single call
returns the vector with an attempt count of 1. -/
theorem claim_embed_single_attempt_witness :
    generate_embedding (fun _ => EmbedOutcome.ok [5]) sampleDescData =
      (some [5], 1) := by
  rw [claim_embed_single_attempt (fun _ => EmbedOutcome.ok [5])
    sampleDescData (by decide)]

/-- Code bug found under C7: `get_coordinates` returns `None` on transport
errors, missing keys/structure and empty result sets, but the `except`
clause lists only `(httpx.RequestError, KeyError, IndexError)`, so an HTTP
error status (`HTTPStatusError` from `raise_for_status`) and a non-JSON
body (`JSONDecodeError` from `response.json()`) propagate out of the
function, contradicting its own docstring ("None if ... an error
occurred"). -/
theorem claim_geocode_uncaught_exceptions :
    get_coordinates (some "key") "ул. Ленина 1" GeoReply.badStatus =
      Except.error PyExc.httpStatusError ∧
    get_coordinates (some "key") "ул. Ленина 1" GeoReply.invalidJson =
      Except.error PyExc.jsonDecodeError ∧
    get_coordinates (some "key") "ул. Ленина 1" GeoReply.transportError =
      Except.ok none ∧
    get_coordinates (some "key") "ул. Ленина 1" GeoReply.malformedStructure =
      Except.ok none ∧
    get_coordinates (some "key") "ул. Ленина 1" (GeoReply.results []) =
      Except.ok none ∧
    get_coordinates none "ул. Ленина 1" GeoReply.badStatus = Except.ok none ∧
    get_coordinates (some "key") "ул. Ленина 1" (GeoReply.results ["37 55"]) =
      Except.ok (some (55, 37)) := by
  refine ⟨rfl, rfl, rfl, rfl, rfl, rfl, ?_⟩
  have hsplit : pySplitWs "37 55".data = [['3', '7'], ['5', '5']] := by decide
  simp only [get_coordinates, parsePosPair, hsplit,
    pyFloat_digits_val (l := ['3', '7']) (by decide) (by decide),
    pyFloat_digits_val (l := ['5', '5']) (by decide) (by decide),
    show digitsToNat ['3', '7'] = 37 from by decide,
    show digitsToNat ['5', '5'] = 55 from by decide]
  norm_num
  rintro (h | h) <;> exact absurd h (by decide)

/-- Counterexample to C4 as stated: a text with a studio token and a stray
digit yields an unknown room count (`None`), not 0; and an out-of-range
count such as 15 is returned as parsed, not rejected. -/
theorem claim_rooms_studio_counterexample :
    extract_rooms "студия 5" = none ∧
    extract_rooms "студия 5" ≠ some 0 ∧
    extract_rooms "Продам 15-комн. квартиру" = some 15 ∧
    extract_rooms "Продам 15-комн. квартиру" ≠ none := by
  refine ⟨rfl, by decide, rfl, by decide⟩

/-- Corrected C4: room-count extraction knows only the digit-plus-unit
patterns (`N` then optional hyphen/space then `комн`, `к.` or `bedroom`);
it has no textual-numeral vocabulary ("studio" stays unknown) and no
`[0,10]` range filter (out-of-range counts are returned as parsed).  On
digit-free text the result is always unknown. -/
theorem claim_rooms_digit_patterns_only :
    (∀ t : String, (∀ c ∈ t.data, c.isDigit = false) →
      extract_rooms t = none) ∧
    extract_rooms "студия 5" = none ∧
    extract_rooms "Продам 2-комн. квартиру" = some 2 ∧
    extract_rooms "Продам 15-комн. квартиру" = some 15 ∧
    extract_rooms "4 bedroom house" = some 4 :=
  ⟨fun _ h => extract_rooms_noDigit h, rfl, rfl, rfl, rfl⟩

/-- Witness for the corrected C4: the digit-free studio text has an
unknown room count. -/
theorem claim_rooms_digit_patterns_only_witness :
    extract_rooms "Продается студия." = none :=
  claim_rooms_digit_patterns_only.1 "Продается студия." (by decide)

/-- Counterexample to C5 as stated: the RUB-derived price is rounded to
two decimal places (`round(price_rub / 90.0, 2)`), so for "100 руб" the
code yields 1.11, which is not `100 / 90` (within any rounding finer than
two decimals). -/
theorem claim_rub_exact_division_counterexample :
    extract_price "100 руб" = Except.ok (some (111 / 100)) ∧
    (111 / 100 : ℚ) ≠ 100 / 90 := by
  constructor
  · have husd : usdSearch "100 руб".data = none := by decide
    have hrub : rubSearch "100 руб".data = some "100 ".data := by decide
    have hpd : priceDigits "100 ".data = ['1', '0', '0'] := by decide
    simp only [extract_price, husd, hrub, hpd,
      pyFloat_digits_val (l := ['1', '0', '0']) (by decide) (by decide),
      show digitsToNat ['1', '0', '0'] = 100 from by decide]
    norm_num [pyRound2]
  · norm_num

/-- Corrected C5: price extraction scans for a USD-tagged token first and
returns its parsed numeral unchanged (after stripping space/comma
separators); only then does it scan for a RUB-tagged token, whose derived
price is `round(rub / 90.0, 2)` — the quotient rounded to two decimal
places, not the exact quotient; with no match of either pattern the price
is unknown, never zero. -/
theorem claim_price_usd_first_rub_rounded :
    (∀ t : String, (∀ c ∈ t.data, c.isDigit = false) →
      extract_price t = Except.ok none) ∧
    (∀ (t : String) (g : List Char) (q : ℚ), usdSearch t.data = some g →
      pyFloat (priceDigits g) = some q →
      extract_price t = Except.ok (some q)) ∧
    (∀ (t : String) (g : List Char) (q : ℚ), usdSearch t.data = none →
      rubSearch t.data = some g → pyFloat (priceDigits g) = some q →
      extract_price t = Except.ok (some (pyRound2 (q / 90)))) ∧
    extract_price "120 000 $" = Except.ok (some 120000) ∧
    extract_price "9 000 000 руб" = Except.ok (some 100000) ∧
    extract_price "100$ 900 руб" = Except.ok (some 100) := by
  refine ⟨?_, ?_, ?_, ?_, ?_, ?_⟩
  · intro t h
    simp only [extract_price, usdSearch, rubSearch, priceSearch_noDigit h]
  · intro t g q h1 h2
    simp only [extract_price, h1, h2]
  · intro t g q h1 h2 h3
    simp only [extract_price, h1, h2, h3]
  · have husd : usdSearch "120 000 $".data = some "120 000 ".data := by decide
    have hpd : priceDigits "120 000 ".data = "120000".data := by decide
    simp only [extract_price, husd, hpd,
      pyFloat_digits_val (l := "120000".data) (by decide) (by decide),
      show digitsToNat "120000".data = 120000 from by decide]
    norm_num
  · have husd : usdSearch "9 000 000 руб".data = none := by decide
    have hrub : rubSearch "9 000 000 руб".data = some "9 000 000 ".data := by
      decide
    have hpd : priceDigits "9 000 000 ".data = "9000000".data := by decide
    simp only [extract_price, husd, hrub, hpd,
      pyFloat_digits_val (l := "9000000".data) (by decide) (by decide),
      show digitsToNat "9000000".data = 9000000 from by decide]
    norm_num [pyRound2]
  · have husd : usdSearch "100$ 900 руб".data = some ['1', '0', '0'] := by
      decide
    have hpd : priceDigits ['1', '0', '0'] = ['1', '0', '0'] := by decide
    simp only [extract_price, husd, hpd,
      pyFloat_digits_val (l := ['1', '0', '0']) (by decide) (by decide),
      show digitsToNat ['1', '0', '0'] = 100 from by decide]
    norm_num

/-- Witness for the corrected C5: a digit-free negotiable-price text has
unknown price, and a matched USD token is returned as parsed. -/
theorem claim_price_usd_first_rub_rounded_witness :
    extract_price "Цена договорная" = Except.ok none ∧
    extract_price "Продам за 55000$." =
      Except.ok (some ((digitsToNat "55000".data : ℕ) : ℚ)) :=
  ⟨claim_price_usd_first_rub_rounded.1 "Цена договорная" (by decide),
   claim_price_usd_first_rub_rounded.2.1 "Продам за 55000$." "55000".data _
     (by decide) (pyFloat_digits_val (by decide) (by decide))⟩

/-- Claim C3: `extract` is total, pure and deterministic — on every text
whose regex-whitespace characters are plain spaces (all printable text in
particular) it returns a value instead of raising — and on every text
with no digits and no occurrence of any field token it returns the
unknown value for transaction type, property type, rooms, area, floor,
price and address. -/
theorem claim_extract_total_unknown :
    (∀ t : String, plainSpaced t → ∃ r, extract t = Except.ok r) ∧
    (∀ t : String, (∀ c ∈ t.data, c.isDigit = false) →
      (∀ kw ∈ FIELD_TOKENS, ciContains kw.data t.data = false) →
      extract t = Except.ok
        ⟨t, none, none, none, none, none, none, none, pyStrip t⟩) :=
  ⟨fun _ h => extract_ok h, fun _ hd hk => extract_noTokens hd hk⟩

/-- Witness for C3: a price-bearing text extracts without error, and a
token-free text extracts to the all-unknown record. -/
theorem claim_extract_total_unknown_witness :
    (∃ r, extract "Цена 120 000 $" = Except.ok r) ∧
    extract "hello, world" = Except.ok
      ⟨"hello, world", none, none, none, none, none, none, none,
        "hello, world"⟩ := by
  constructor
  · exact claim_extract_total_unknown.1 "Цена 120 000 $" (by decide)
  · exact claim_extract_total_unknown.2 "hello, world" (by decide) (by decide)

/-- A persisted row with the given message id and posting time, all
optional enrichment absent. -/
def simpleRow (mid postedAt : Nat) : PropertyRow :=
  { telegram_message_id := mid, telegram_channel_id := 1,
    posted_at := postedAt, transaction_type := none, property_type := none,
    rooms := none, area_sqm := none, floor := none, price_usd := none,
    address := none, latitude := none, longitude := none, description := "",
    raw_text := "", embedding := none, photos := [], video_url := none,
    views_count := 0 }

/-- Counterexample to C6 as stated: the loaded watermark is the message id
of the row with the latest `posted_at` (the query orders by `posted_at`,
not by message id), so with a later-posted row of smaller id the loaded
value differs from the maximum persisted message id. -/
theorem claim_watermark_max_id_counterexample :
    load_last_message_id [simpleRow 7 1, simpleRow 5 2] = 5 ∧
    specMaxMessageId [simpleRow 7 1, simpleRow 5 2] = 7 ∧
    load_last_message_id [simpleRow 7 1, simpleRow 5 2] ≠
      specMaxMessageId [simpleRow 7 1, simpleRow 5 2] :=
  ⟨rfl, rfl, by decide⟩

/-- Corrected C6: the watermark loaded at orchestrator start is re-derived
from the database — it equals the `telegram_message_id` of a persisted row
whose `posted_at` is maximal over all rows (no channel filter), and 0 when
no rows exist; it is not in general the maximum message id. -/
theorem claim_watermark_latest_posted :
    load_last_message_id [] = 0 ∧
    ∀ db : List PropertyRow, db ≠ [] →
      ∃ r, r ∈ db ∧ load_last_message_id db = r.telegram_message_id ∧
        ∀ x ∈ db, x.posted_at ≤ r.posted_at := by
  refine ⟨rfl, ?_⟩
  intro db hne
  cases db with
  | nil => exact absurd rfl hne
  | cons x xs =>
    rw [load_last_message_id, latestByPostedAt, List.foldl_cons,
      show latestStep none x = some x from rfl]
    obtain ⟨r, hr, hrmem, hxle, hall⟩ := latestFold_spec xs x
    rw [hr]
    refine ⟨r, ?_, rfl, ?_⟩
    · rcases hrmem with rfl | hm
      · exact List.mem_cons_self _ _
      · exact List.mem_cons_of_mem _ hm
    · intro y hy
      rcases List.mem_cons.mp hy with rfl | hm
      · exact hxle
      · exact hall y hm

/-- Witness for the corrected C6 on a concrete two-row database. -/
theorem claim_watermark_latest_posted_witness :
    ∃ r, r ∈ [simpleRow 7 1, simpleRow 5 2] ∧
      load_last_message_id [simpleRow 7 1, simpleRow 5 2] =
        r.telegram_message_id ∧
      ∀ x ∈ [simpleRow 7 1, simpleRow 5 2], x.posted_at ≤ r.posted_at :=
  claim_watermark_latest_posted.2 [simpleRow 7 1, simpleRow 5 2] (by decide)

/-- Two sibling photo messages of one album (same `grouped_id` 9, ids 1
and 2) in the transport store. -/
def msgSibling1 : TgMessage :=
  ⟨1, 5, 100, "Продам квартиру", true, false, some 9, "media/a.jpg", none⟩

def msgSibling2 : TgMessage :=
  ⟨2, 5, 100, "", true, false, some 9, "media/b.jpg", none⟩

def groupStore : List TgMessage := [msgSibling1, msgSibling2]

/-- Counterexample to C8 as stated: for a grouped message with two sibling
photo attachments the code requests only `ids=[message.id]` from the
transport, so the sibling's attachment is never downloaded — the result
holds one reference, not two. -/
theorem claim_media_group_sibling_counterexample :
    download_media groupStore msgSibling1 = ["media/a.jpg"] ∧
    "media/b.jpg" ∉ download_media groupStore msgSibling1 ∧
    (download_media groupStore msgSibling1).length ≠ 2 := by
  refine ⟨rfl, by decide, by decide⟩

/-- Corrected C8: media acquisition downloads the triggering message's own
attachment and, for a grouped message, re-fetches only the triggering
message's id from the transport (not every sibling of the group); results
are de-duplicated by path, so the returned list never contains the same
path twice, and every returned path is the message's own or that of a
store message with the same chat and message id. -/
theorem claim_media_dedup_own_id_only :
    ∀ (store : List TgMessage) (m : TgMessage),
      (download_media store m).Nodup ∧
      ∀ p ∈ download_media store m, p = m.mediaPath ∨
        ∃ mg, mg ∈ store ∧ mg.chat_id = m.chat_id ∧ mg.id = m.id ∧
          p = mg.mediaPath := by
  intro store m
  have hpaths1 :
      ∀ p ∈ (if m.photo || m.video then [m.mediaPath] else []),
        p = m.mediaPath := by
    intro p hp
    by_cases h : (m.photo || m.video) = true
    · rw [if_pos h] at hp
      rw [List.mem_singleton] at hp
      exact hp
    · rw [if_neg h] at hp
      exact absurd hp (List.not_mem_nil p)
  have hpaths1nodup :
      (if m.photo || m.video then [m.mediaPath] else []).Nodup := by
    by_cases h : (m.photo || m.video) = true
    · rw [if_pos h]; exact List.nodup_singleton _
    · rw [if_neg h]; exact List.nodup_nil
  have hms : ∀ om ∈ get_messages store m.chat_id [m.id], ∀ mg, om = some mg →
      mg ∈ store ∧ mg.chat_id = m.chat_id ∧ mg.id = m.id := by
    intro om hom mg hmg
    rw [get_messages, List.map_cons, List.map_nil, List.mem_singleton] at hom
    rw [hom] at hmg
    refine ⟨List.mem_of_find?_eq_some hmg, ?_⟩
    have hp := List.find?_some hmg
    rw [Bool.and_eq_true, decide_eq_true_iff, decide_eq_true_iff] at hp
    exact hp
  rw [download_media]
  by_cases hg : truthyGroupId m.grouped_id = true
  · rw [if_pos hg]
    constructor
    · exact groupLoop_nodup _ _ hpaths1nodup
    · apply groupLoop_scope
      · exact fun p hp => Or.inl (hpaths1 p hp)
      · intro om hom mg hmg
        obtain ⟨h1, h2, h3⟩ := hms om hom mg hmg
        exact Or.inr ⟨mg, h1, h2, h3, rfl⟩
  · rw [if_neg hg]
    exact ⟨hpaths1nodup, fun p hp => Or.inl (hpaths1 p hp)⟩

/-- Witness for the corrected C8 on the concrete two-sibling store. -/
theorem claim_media_dedup_own_id_only_witness :
    (download_media groupStore msgSibling1).Nodup ∧
    ("media/a.jpg" = msgSibling1.mediaPath ∨
      ∃ mg, mg ∈ groupStore ∧ mg.chat_id = msgSibling1.chat_id ∧
        mg.id = msgSibling1.id ∧ "media/a.jpg" = mg.mediaPath) :=
  ⟨(claim_media_dedup_own_id_only groupStore msgSibling1).1,
   (claim_media_dedup_own_id_only groupStore msgSibling1).2
     "media/a.jpg" (by decide)⟩

/-- Claim C1: ingesting the same source message id twice results in
exactly one persisted row for that id — the second commit fails on the
unique constraint on `telegram_message_id`, the transaction is rolled
back, and `process_message` returns normally (the orchestrator loop is
not halted) with the state unchanged. -/
theorem claim_duplicate_id_single_row :
    ∀ (svc : Nat → EmbedOutcome) (apiKey : Option String)
      (georeply : String → GeoReply) (store : List TgMessage)
      (st : ParserState) (m : TgMessage) (d : ExtractedData),
      m.text ≠ "" →
      extract m.text = Except.ok d →
      (∃ c, geocodeStep apiKey georeply d.address = Except.ok c) →
      st.db.countP (fun r => r.telegram_message_id = m.id) = 0 →
      ∃ st1, process_message svc apiKey georeply store st m = Except.ok st1 ∧
        st1.db.countP (fun r => r.telegram_message_id = m.id) = 1 ∧
        process_message svc apiKey georeply store st1 m = Except.ok st1 := by
  intro svc apiKey georeply store st m d htext hex hgeo hcount
  obtain ⟨c, hgeoc⟩ := hgeo
  have hins : ∀ row : PropertyRow, row.telegram_message_id = m.id →
      dbInsert st.db row = Except.ok (st.db ++ [row]) := by
    intro row hr
    rw [dbInsert, if_neg]
    intro hany
    rw [List.any_eq_true] at hany
    obtain ⟨x, hx, hpx⟩ := hany
    have h0 := List.countP_eq_zero.mp hcount x hx
    rw [decide_eq_true_iff, hr] at hpx
    exact h0 (decide_eq_true hpx)
  have hinsA := hins
    (mkRow st.channel_id m d (download_media store m) c
      ((generate_embedding svc d).1)) rfl
  have hproc1 : process_message svc apiKey georeply store st m =
      Except.ok { st with
        db := st.db ++ [mkRow st.channel_id m d (download_media store m) c
          ((generate_embedding svc d).1)],
        last_message_id := m.id } := by
    simp only [process_message, if_neg htext, hex, hgeoc, hinsA]
  refine ⟨_, hproc1, ?_, ?_⟩
  · rw [List.countP_append, hcount, List.countP_cons]
    simp [mkRow]
  · have hany2 : (st.db ++ [mkRow st.channel_id m d (download_media store m) c
        ((generate_embedding svc d).1)]).any
        (fun x => x.telegram_message_id =
          (mkRow st.channel_id m d (download_media store m) c
            ((generate_embedding svc d).1)).telegram_message_id) = true := by
      rw [List.any_eq_true]
      exact ⟨mkRow st.channel_id m d (download_media store m) c
          ((generate_embedding svc d).1),
        List.mem_append_right _ (List.mem_singleton.mpr rfl),
        decide_eq_true rfl⟩
    have hins2 : dbInsert (st.db ++ [mkRow st.channel_id m d
          (download_media store m) c ((generate_embedding svc d).1)])
        (mkRow st.channel_id m d (download_media store m) c
          ((generate_embedding svc d).1)) = Except.error () := by
      rw [dbInsert, if_pos hany2]
    simp only [process_message, if_neg htext, hex, hgeoc, hins2]

/-- A concrete text message and the record its text extracts to. -/
def msgW : TgMessage :=
  ⟨10, 7, 100, "Продам квартиру", false, false, none, "", none⟩

def dW : ExtractedData :=
  ⟨"Продам квартиру", some "sell", some "apartment", none, none, none, none,
    none, "Продам квартиру"⟩

/-- Witness for C1: processing the same message twice from an empty
database leaves exactly one row and the second call returns normally. -/
theorem claim_duplicate_id_single_row_witness :
    ∃ st1, process_message (fun _ => EmbedOutcome.apiError) none
        (fun _ => GeoReply.transportError) [] ⟨[], 0, 7⟩ msgW =
        Except.ok st1 ∧
      st1.db.countP (fun r => r.telegram_message_id = msgW.id) = 1 ∧
      process_message (fun _ => EmbedOutcome.apiError) none
        (fun _ => GeoReply.transportError) [] st1 msgW = Except.ok st1 :=
  claim_duplicate_id_single_row _ _ _ _ _ _ dW (by decide) (by decide)
    ⟨none, rfl⟩ (by decide)
